import Mathlib

/-!
Verification development for the pymake build engine (`src/lib/pymake.py`).

The Python module is shallowly embedded here:

* `Req` mirrors the `Req` class hierarchy (`FileReq`, `TaskReq`, `DummyReq`).
  A `TaskReq` carries its `order_only` attribute; a `DummyReq` does not carry
  one, mirroring the fact that `DummyReq.__init__` never defines
  `self.order_only` while `TaskReq.__init__` does.
* Filesystem modification times are modeled as `FS := String → Option Nat`;
  `none` plays the role of the `float(nan)` returned by
  `FileReq.last_update` for a missing file.  The Python comparisons
  `last_update > max_usts` and `last_update <= max_usts` are both false when
  either side is NaN, which `optGT` / `optLE` reproduce on `Option Nat`.
* `check_uptodate` embeds `HierReq.check_uptodate` including its mutable
  effects: the per-node `uptodate` flag and `_cached_max_usts` field live in
  an explicit state `Sig` keyed by target string (node identity in a build is
  the target string, via `Req.instances`).  Exceptions raised by the Python
  code (`AttributeError` from reading the missing `order_only` attribute of a
  `DummyReq`, and the `ValueError` fallthrough) are modeled with `Except`.
  The third component of the result is a trace listing each node on which
  `check_uptodate` was entered, used to reason about memoization.
* `run` embeds `HierReq.run` (with `parallel=False`; the thread spawned for
  each prerequisite is joined immediately, which makes the serial branch a
  sequential program) together with `FileReq.run`, `TaskReq.do` and
  `DummyReq.do`.  The per-node `run_lock`, `done` flag, `uptodate` flag and
  `err_event` live in the explicit state `RS`.  Acquiring a lock that is
  already held blocks forever, modeled by the result `RunRes.blocked`; an
  exception propagating out of `run` is `RunRes.raised`.  A recipe is an
  opaque effect `String → FS → FS × Nat` returning the new filesystem and the
  exit status of the subprocess.
* `backup` embeds the `backup` context manager over a filesystem mapping
  paths to `Option` values (contents or mtimes); `os.rename` and `os.remove`
  are `fsRename` and `fsSet _ _ none`.
* `MRule` abstracts the `Rule` class at the interface `make_req` consumes:
  `applies`, `get_preqs` and `get_recipe` become the fields `appliesFn`,
  `preqsFn` and `recipeFn` (the regex matching and `str.format` expansion are
  performed by the Python standard library and are outside the embedded
  algorithms).  `extract_rule`, `make_req` and the registry `Req.instances`
  (an association list `Reg`, updated exactly where `Req.__init__` runs) are
  embedded directly; `make_req_fuel` is a fuel-indexed variant used to state
  the recursion-depth bound.
-/

namespace Pymake

/-- The `Req` class hierarchy: `FileReq trgt`, `TaskReq trgt requires recipe
order_only` and `DummyReq trgt requires`.  A `DummyReq` has no `order_only`
field, exactly as in the source. -/
inductive Req where
  | file (trgt : String)
  | task (trgt : String) (requires : List Req) (recipe : String) (order_only : Bool)
  | dummy (trgt : String) (requires : List Req)

/-- The `trgt` attribute common to all `Req` objects. -/
def Req.trgt : Req → String
  | .file t => t
  | .task t _ _ _ => t
  | .dummy t _ => t

/-- Filesystem modification times: `fs p = some m` means path `p` exists with
mtime `m`; `none` means the path does not exist (NaN timestamp). -/
abbrev FS := String → Option Nat

/-- Mutable per-node state of a `HierReq`: the `uptodate` flag (initially
`False`) and the `_cached_max_usts` attribute set on line 314 of the source
(`none` standing for NaN). -/
structure NodeSt where
  uptodate : Bool := false
  cached : Option Nat := none
deriving DecidableEq

/-- The states of all `HierReq` objects of a build, keyed by target string. -/
abbrev Sig := String → NodeSt

/-- The state in which no node has been evaluated yet: every `uptodate` flag
is `False`, as set by `HierReq.__init__`. -/
def initSig : Sig := fun _ => {}

/-- Pointwise update of a `Sig`. -/
def supd (σ : Sig) (t : String) (ns : NodeSt) : Sig :=
  fun s => if s = t then ns else σ s

/-- Exceptions that `HierReq.check_uptodate` can raise: `AttributeError`
(reading `self.order_only` on a `DummyReq`, which never defines it) and the
`ValueError` of the final `else` branch. -/
inductive CUErr where
  | attrError
  | valueError
deriving DecidableEq

/-- `of_non_nan(max, vals)`: the maximum of the non-NaN values, or NaN if
there are none. -/
def of_non_nan (vals : List (Option Nat)) : Option Nat :=
  match vals.filterMap id with
  | [] => none
  | x :: xs => some (xs.foldl max x)

/-- Python `a > b` on floats where `none` is NaN: false whenever either side
is NaN. -/
def optGT : Option Nat → Option Nat → Bool
  | some x, some y => decide (y < x)
  | _, _ => false

/-- Python `a <= b` on floats where `none` is NaN: false whenever either side
is NaN. -/
def optLE : Option Nat → Option Nat → Bool
  | some x, some y => decide (x ≤ y)
  | _, _ => false

/-- Result of `check_uptodate`: the returned timestamp (or the exception),
the updated node states, and the trace of nodes entered. -/
abbrev CURes := Except CUErr (Option Nat) × Sig × List String

mutual

/-- Embedding of `check_uptodate`.  `FileReq.check_uptodate` returns
`last_update()`.  For a `HierReq` the branch structure of lines 306-347 of
the source is reproduced literally: the memoized branch guarded by the
`uptodate` flag, the assignment to `_cached_max_usts`, and the four-way
split on target existence, NaN aggregate, strict newer, and not-newer, with
the `ValueError` fallthrough.  Reading `order_only` on a `DummyReq` yields
`AttributeError` (after any state mutation that precedes the read, since the
flag assignment on the line above the read has already happened). -/
def check_uptodate (fs : FS) : Req → Sig → CURes
  | .file t, σ => (.ok (fs t), σ, [t])
  | .task t reqs _ oo, σ =>
    if (σ t).uptodate then
      (if !oo then .ok (fs t) else .ok (σ t).cached, σ, [t])
    else
      match cu_list fs reqs σ with
      | (.error e, σ1, tr) => (.error e, σ1, t :: tr)
      | (.ok vals, σ1, tr) =>
        let last := fs t
        let m := of_non_nan vals
        let σ2 := supd σ1 t { σ1 t with cached := m }
        if (fs t).isNone then
          (.ok m, supd σ2 t { uptodate := false, cached := m }, t :: tr)
        else if m.isNone then
          (if !oo then .ok last else .ok m,
            supd σ2 t { uptodate := true, cached := m }, t :: tr)
        else if optGT last m then
          (if !oo then .ok last else .ok m,
            supd σ2 t { uptodate := true, cached := m }, t :: tr)
        else if optLE last m then
          (.ok m, supd σ2 t { uptodate := false, cached := m }, t :: tr)
        else
          (.error .valueError, σ2, t :: tr)
  | .dummy t reqs, σ =>
    if (σ t).uptodate then
      (.error .attrError, σ, [t])
    else
      match cu_list fs reqs σ with
      | (.error e, σ1, tr) => (.error e, σ1, t :: tr)
      | (.ok vals, σ1, tr) =>
        let last : Option Nat := none
        let m := of_non_nan vals
        let σ2 := supd σ1 t { σ1 t with cached := m }
        if (fs t).isNone then
          (.ok m, supd σ2 t { uptodate := false, cached := m }, t :: tr)
        else if m.isNone then
          (.error .attrError, supd σ2 t { uptodate := true, cached := m }, t :: tr)
        else if optGT last m then
          (.error .attrError, supd σ2 t { uptodate := true, cached := m }, t :: tr)
        else if optLE last m then
          (.ok m, supd σ2 t { uptodate := false, cached := m }, t :: tr)
        else
          (.error .valueError, σ2, t :: tr)

/-- Evaluation of the prerequisites of a node, left to right, as consumed by
`of_non_nan(max, (preq.check_uptodate() for preq in self.requires))`.  An
exception in a prerequisite propagates, keeping the state mutations made so
far. -/
def cu_list (fs : FS) : List Req → Sig → Except CUErr (List (Option Nat)) × Sig × List String
  | [], σ => (.ok [], σ, [])
  | r :: rs, σ =>
    match check_uptodate fs r σ with
    | (.error e, σ1, tr) => (.error e, σ1, tr)
    | (.ok v, σ1, tr) =>
      match cu_list fs rs σ1 with
      | (.error e, σ2, tr2) => (.error e, σ2, tr ++ tr2)
      | (.ok vs, σ2, tr2) => (.ok (v :: vs), σ2, tr ++ tr2)

end

/-! ## The backup context manager -/

/-- Pointwise update of a filesystem mapping paths to `Option` values
(contents for the backup model, mtimes for the run model).
`fsSet g p none` is `os.remove(p)`. -/
def fsSet {α : Type} (g : String → Option α) (p : String) (v : Option α) :
    String → Option α :=
  fun s => if s = p then v else g s

/-- `os.rename(src, dst)`: `dst` receives the value of `src` and `src` no
longer exists (an existing `dst` is overwritten, as on POSIX). -/
def fsRename {α : Type} (g : String → Option α) (src dst : String) :
    String → Option α :=
  fsSet (fsSet g dst (g src)) src none

/-- The backup name used by `TaskReq.do`: prepend `"."`, append
`"~pymake-backup"` (for a path without a directory separator, so that the
`os.path.dirname` component of the source expression is empty). -/
def bname (t : String) : String := "." ++ t ++ "~pymake-backup"

/-- Embedding of the `backup` context manager.  `body` is the code run while
the manager is active, returning the new filesystem and `True` on normal
completion, `False` when it raises.  `onFail` records whether an `on_fail`
callable was supplied (in `TaskReq.do` it is `os.remove`). -/
def backup {α : Type} (path bpath : String) (onFail : Bool)
    (body : (String → Option α) → (String → Option α) × Bool)
    (g : String → Option α) : (String → Option α) × Bool :=
  let origExists := (g path).isSome
  let g1 := if origExists then fsRename g path bpath else g
  match body g1 with
  | (g2, true) =>
    (if origExists then fsSet g2 bpath none else g2, true)
  | (g2, false) =>
    if origExists then (fsRename g2 bpath path, false)
    else if (g2 path).isSome && onFail then (fsSet g2 path none, false)
    else (g2, false)

/-- Embedding of `TaskReq.do` over file contents (`String → Option String`),
for reasoning about the backup round trip.  `recipeC` is the effect of the
shell recipe: the new filesystem and the exit status of the subprocess.  The
Bool result is `True` when `do` returns normally, `False` when it raises
`CalledProcessError`. -/
def do_task {α : Type} (execute order_only : Bool) (trgt : String)
    (recipeC : (String → Option α) → (String → Option α) × Nat)
    (g : String → Option α) : (String → Option α) × Bool :=
  if order_only && (g trgt).isSome then (g, true)
  else if execute then
    backup trgt (bname trgt) true
      (fun h => match recipeC h with | (h2, c) => (h2, c == 0)) g
  else (g, true)

/-! ## The executor: HierReq.run, FileReq.run and the do methods -/

/-- Result of a call to `run`: `ok` when the call returns, `raised` when an
exception propagates out of it, `blocked` when it never returns because it
waits forever on a lock (or joins a thread that never finishes). -/
inductive RunRes where
  | ok
  | raised
  | blocked
deriving DecidableEq

/-- Outcome of the prerequisite loop inside `HierReq.run`: all prerequisite
threads joined without an observed error, or the loop returned early after
observing `preq.err_event`, or a join never returned. -/
inductive SeqRes where
  | allOk
  | errFound
  | blockedP
deriving DecidableEq

/-- Executor state: the per-node `run_lock`, `done` flag, `uptodate` flag
(as left by the `check_uptodate` phase) and `err_event`, all keyed by target
string, plus the filesystem and the instrumentation list `executed` of
targets whose recipe was handed to the subprocess runner, in order. -/
structure RS where
  lock : String → Bool
  done : String → Bool
  upt : String → Bool
  err : String → Bool
  fs : FS
  executed : List String

/-- Pointwise update of a Boolean per-target map. -/
def bset (f : String → Bool) (t : String) (b : Bool) : String → Bool :=
  fun s => if s = t then b else f s

/-- The executor state in which `run` starts after staleness evaluation:
locks free, nothing done, no errors, `uptodate` flags as computed by
`check_uptodate`. -/
def toRS (σ : Sig) (fs : FS) : RS :=
  { lock := fun _ => false, done := fun _ => false,
    upt := fun s => (σ s).uptodate, err := fun _ => false,
    fs := fs, executed := [] }

mutual

/-- Embedding of `run` in serial mode (`parallel=False`; each prerequisite
thread is started and joined immediately, so the loop is sequential) together
with `FileReq.run` and the `do` methods.  `rr` gives the effect of executing
a recipe string: the new filesystem and the subprocess exit status.

The lock discipline is that of the source: `run_lock.acquire()` on entry,
with explicit `release()` calls on the return paths of lines 366, 371, 375,
398, 414, 422 and 426 — and no release when `self.do(**kwargs)` raises,
because no `try/finally` protects the call on line 418.  Acquiring a lock
that is already held blocks forever (`RunRes.blocked`). -/
def run (execute : Bool) (rr : String → FS → FS × Nat) : Req → RS → RunRes × RS
  | .file t, rs =>
    if (rs.fs t).isNone then (.raised, { rs with err := bset rs.err t true })
    else (.ok, rs)
  | .task t reqs rcp oo, rs =>
    if rs.lock t then (.blocked, rs)
    else
      let rs1 : RS := { rs with lock := bset rs.lock t true }
      let fin : RS → RunRes × RS := fun rs3 =>
        if rs3.err t then (.ok, { rs3 with lock := bset rs3.lock t false })
        else (.ok, { rs3 with done := bset rs3.done t true,
                              lock := bset rs3.lock t false })
      if rs1.done t then (.ok, { rs1 with lock := bset rs1.lock t false })
      else if rs1.upt t then
        (.ok, { rs1 with done := bset rs1.done t true,
                         lock := bset rs1.lock t false })
      else if rs1.err t then (.ok, { rs1 with lock := bset rs1.lock t false })
      else
        match run_seq execute rr reqs rs1 with
        | (.blockedP, rs2) => (.blocked, rs2)
        | (.errFound, rs2) =>
          (.ok, { rs2 with err := bset rs2.err t true,
                           lock := bset rs2.lock t false })
        | (.allOk, rs2) =>
          if oo && (rs2.fs t).isSome then fin rs2
          else if execute then
            match backup t (bname t) true
                (fun g => match rr rcp g with | (g2, c) => (g2, c == 0))
                rs2.fs with
            | (fs2, true) =>
              fin { rs2 with fs := fs2, executed := rs2.executed ++ [t] }
            | (fs2, false) =>
              (.raised, { rs2 with fs := fs2,
                                   executed := rs2.executed ++ [t],
                                   err := bset rs2.err t true })
          else fin rs2
  | .dummy t reqs, rs =>
    if rs.lock t then (.blocked, rs)
    else
      let rs1 : RS := { rs with lock := bset rs.lock t true }
      let fin : RS → RunRes × RS := fun rs3 =>
        if rs3.err t then (.ok, { rs3 with lock := bset rs3.lock t false })
        else (.ok, { rs3 with done := bset rs3.done t true,
                              lock := bset rs3.lock t false })
      if rs1.done t then (.ok, { rs1 with lock := bset rs1.lock t false })
      else if rs1.upt t then
        (.ok, { rs1 with done := bset rs1.done t true,
                         lock := bset rs1.lock t false })
      else if rs1.err t then (.ok, { rs1 with lock := bset rs1.lock t false })
      else
        match run_seq execute rr reqs rs1 with
        | (.blockedP, rs2) => (.blocked, rs2)
        | (.errFound, rs2) =>
          (.ok, { rs2 with err := bset rs2.err t true,
                           lock := bset rs2.lock t false })
        | (.allOk, rs2) => fin rs2

/-- The serial prerequisite loop of `HierReq.run` (lines 400-415): spawn a
thread for the prerequisite, join it (a join returns even when the thread
died with an exception, so a `raised` child is joined normally; a `blocked`
child blocks the join forever), then return early if `preq.err_event` is
set. -/
def run_seq (execute : Bool) (rr : String → FS → FS × Nat) :
    List Req → RS → SeqRes × RS
  | [], rs => (.allOk, rs)
  | p :: ps, rs =>
    match run execute rr p rs with
    | (.blocked, rs1) => (.blockedP, rs1)
    | (_, rs1) =>
      if rs1.err p.trgt then (.errFound, rs1)
      else run_seq execute rr ps rs1

end

/-- The fan-in loop of the parallel branch of `HierReq.run` (lines 392-399):
every prerequisite thread has been started; the loop joins them in order and
returns as soon as a joined prerequisite has its `err_event` set.  Input: the
list of prerequisite targets paired with whether that prerequisite ends with
`err_event` set; output: the targets whose threads get joined. -/
def join_loop : List (String × Bool) → List String
  | [] => []
  | (t, e) :: rest => if e then [t] else t :: join_loop rest

/-! ## Graph construction: extract_rule, make_req and the Req.instances registry -/

/-- A `Rule` as consumed by `make_req`, abstracted at its interface: the
regex match of `applies` becomes the predicate `appliesFn`, and the
`str.format` template expansions of `get_preqs` and `get_recipe` become the
functions `preqsFn` and `recipeFn` of the target (the pattern matching and
template substitution live in the Python standard library `re` and `str`
machinery, outside the embedded algorithms). -/
structure MRule where
  appliesFn : String → Bool
  preqsFn : String → List String
  recipeFn : String → String
  order_only : Bool

/-- The `Req.instances` class attribute: a mapping from target string to the
`Req` registered for it.  Modeled as an association list where an assignment
prepends, so a lookup sees the most recent assignment, like a dict write. -/
abbrev Reg := List (String × Req)

/-- Dict lookup in `Req.instances`. -/
def rget (reg : Reg) (t : String) : Option Req :=
  match reg with
  | [] => none
  | (k, v) :: rest => if k = t then some v else rget rest t

/-- The assignment `Req.instances[trgt] = self` performed by
`Req.__init__`. -/
def rset (reg : Reg) (t : String) (r : Req) : Reg := (t, r) :: reg

/-- `extract_rule(trgt, rules)`: the first rule whose pattern applies to
`trgt`, and the remaining rules with that rule deleted; `(none, rules)` when
no rule applies. -/
def extract_rule (trgt : String) : List MRule → Option MRule × List MRule
  | [] => (none, [])
  | r :: rs =>
    if r.appliesFn trgt then (some r, rs)
    else
      match extract_rule trgt rs with
      | (o, rest) => (o, r :: rest)

mutual

/-- Embedding of `make_req(trgt, rules)` with the `Req.instances` registry
passed explicitly (in the source it is a process-wide class attribute;
nothing ever clears it, so each call receives whatever registry previous
calls left behind).  Registration happens inside `Req.__init__`, that is,
when a node object is constructed — after its prerequisites were resolved. -/
def make_req (trgt : String) (rules : List MRule) (reg : Reg) : Req × Reg :=
  match rget reg trgt with
  | some r => (r, reg)
  | none =>
    match h : extract_rule trgt rules with
    | (some rule, remaining) =>
      let pr := make_reqs (rule.preqsFn trgt) remaining reg
      let recipe := rule.recipeFn trgt
      if recipe = "" then
        let node := Req.dummy trgt pr.1
        (node, rset pr.2 trgt node)
      else
        let node := Req.task trgt pr.1 recipe rule.order_only
        (node, rset pr.2 trgt node)
    | (none, _) =>
      let node := Req.file trgt
      (node, rset reg trgt node)
termination_by (rules.length, 0)
decreasing_by
  have hlen : remaining.length + 1 = rules.length := by
    induction rules generalizing remaining with
    | nil => simp [extract_rule] at h
    | cons a as ih =>
      rw [extract_rule] at h
      by_cases ha : a.appliesFn trgt = true
      · rw [if_pos ha] at h
        cases h
        simp
      · rw [if_neg ha] at h
        cases hrem : extract_rule trgt as with
        | mk o rem2 =>
          rw [hrem] at h
          rw [Prod.mk.injEq] at h
          obtain ⟨h1, h2⟩ := h
          subst h1
          have := ih rem2 hrem
          simp [← h2]
          omega
  simp +arith [Prod.lex_iff]
  omega

/-- The list comprehension `[make_req(preq, remaining) for preq in preqs]`,
threading the registry left to right. -/
def make_reqs (ps : List String) (rules : List MRule) (reg : Reg) : List Req × Reg :=
  match ps with
  | [] => ([], reg)
  | p :: rest =>
    let r1 := make_req p rules reg
    let r2 := make_reqs rest rules r1.2
    (r1.1 :: r2.1, r2.2)
termination_by (rules.length, ps.length + 1)
decreasing_by
  · simp [Prod.lex_iff]
  · simp [Prod.lex_iff]

end

mutual

/-- Fuel-indexed variant of `make_req`, used to state the bound on the
recursion depth: the fuel decreases by one exactly where `make_req` recurses
into the rule-pruned candidate list. -/
def make_req_fuel : Nat → String → List MRule → Reg → Option (Req × Reg)
  | 0, _, _, _ => none
  | fuel + 1, trgt, rules, reg =>
    match rget reg trgt with
    | some r => some (r, reg)
    | none =>
      match extract_rule trgt rules with
      | (some rule, remaining) =>
        match make_reqs_fuel fuel (rule.preqsFn trgt) remaining reg with
        | none => none
        | some (reqs, reg1) =>
          let recipe := rule.recipeFn trgt
          if recipe = "" then
            let node := Req.dummy trgt reqs
            some (node, rset reg1 trgt node)
          else
            let node := Req.task trgt reqs recipe rule.order_only
            some (node, rset reg1 trgt node)
      | (none, _) =>
        let node := Req.file trgt
        some (node, rset reg trgt node)
termination_by fuel => (fuel, 0)

/-- Fuel-indexed variant of `make_reqs`. -/
def make_reqs_fuel : Nat → List String → List MRule → Reg → Option (List Req × Reg)
  | _, [], _, reg => some ([], reg)
  | fuel, p :: rest, rules, reg =>
    match make_req_fuel fuel p rules reg with
    | none => none
    | some (r1, reg1) =>
      match make_reqs_fuel fuel rest rules reg1 with
      | none => none
      | some (rs, reg2) => some (r1 :: rs, reg2)
termination_by fuel ps => (fuel, ps.length + 1)

end

/-! ## Helper lemmas -/

@[simp] theorem supd_same (σ : Sig) (t : String) (ns : NodeSt) : supd σ t ns t = ns := by
  simp [supd]

theorem supd_other (σ : Sig) (t s : String) (ns : NodeSt) (h : s ≠ t) :
    supd σ t ns s = σ s := by
  simp [supd, h]

@[simp] theorem bset_same (f : String → Bool) (t : String) (b : Bool) :
    bset f t b t = b := by simp [bset]

theorem extract_rule_length {trgt : String} :
    ∀ {rules : List MRule} {r : MRule} {rem : List MRule},
      extract_rule trgt rules = (some r, rem) → rem.length + 1 = rules.length := by
  intro rules
  induction rules with
  | nil => intro r rem h; simp [extract_rule] at h
  | cons a as ih =>
    intro r rem h
    rw [extract_rule] at h
    by_cases ha : a.appliesFn trgt = true
    · rw [if_pos ha] at h
      cases h
      simp
    · rw [if_neg ha] at h
      cases hrem : extract_rule trgt as with
      | mk o rem2 =>
        rw [hrem] at h
        rw [Prod.mk.injEq] at h
        obtain ⟨h1, h2⟩ := h
        subst h1
        have := ih hrem
        simp [← h2]
        omega

theorem supd_supd (σ : Sig) (t : String) (a b : NodeSt) :
    supd (supd σ t a) t b = supd σ t b := by
  funext s
  by_cases h : s = t <;> simp [supd, h]

theorem foldl_max_mem : ∀ (xs : List Nat) (x : Nat), xs.foldl max x ∈ x :: xs := by
  intro xs
  induction xs with
  | nil => intro x; simp
  | cons a as ih =>
    intro x
    have h := ih (max x a)
    rcases max_choice x a with hm | hm <;>
      · rw [List.foldl_cons]
        rcases List.mem_cons.mp h with h2 | h2 <;> simp [hm] at h2 ⊢ <;> simp [h2]

theorem of_non_nan_mem {vals : List (Option Nat)} {x : Nat}
    (h : of_non_nan vals = some x) : some x ∈ vals := by
  rw [of_non_nan] at h
  cases hl : vals.filterMap id with
  | nil => rw [hl] at h; simp at h
  | cons a as =>
    rw [hl] at h
    simp only [Option.some.injEq] at h
    have hmem : x ∈ a :: as := h ▸ foldl_max_mem as a
    rw [← hl] at hmem
    rw [List.mem_filterMap] at hmem
    obtain ⟨b, hb, hid⟩ := hmem
    simp only [id_eq] at hid
    rwa [hid] at hb

/-- The value `check_uptodate` computes for a not-yet-flagged `TaskReq`, as a
function of the target mtime and the prerequisite aggregate. -/
theorem check_task_result (fs : FS) (t : String) (reqs : List Req) (rcp : String)
    (oo : Bool) (σ0 : Sig) (vals : List (Option Nat)) (σ1 : Sig) (tr : List String)
    (h0 : (σ0 t).uptodate = false)
    (hcu : cu_list fs reqs σ0 = (.ok vals, σ1, tr)) :
    check_uptodate fs (.task t reqs rcp oo) σ0 =
      match fs t, of_non_nan vals with
      | none, m => (.ok m, supd σ1 t ⟨false, m⟩, t :: tr)
      | some mt, none =>
        ((if !oo then .ok (some mt) else .ok none),
          supd σ1 t ⟨true, none⟩, t :: tr)
      | some mt, some mx =>
        if mx < mt then
          ((if !oo then .ok (some mt) else .ok (some mx)),
            supd σ1 t ⟨true, some mx⟩, t :: tr)
        else (.ok (some mx), supd σ1 t ⟨false, some mx⟩, t :: tr) := by
  rw [check_uptodate, if_neg (by simp [h0]), hcu]
  simp only [supd_supd]
  cases hft : fs t with
  | none => simp [hft]
  | some mt =>
    cases hm : of_non_nan vals with
    | none => simp [hft, hm]
    | some mx =>
      simp only [hft, hm, Option.isNone_some, Bool.false_eq_true, if_false, optGT, optLE]
      by_cases hlt : mx < mt
      · simp [hlt]
      · have hle : mt ≤ mx := Nat.le_of_not_lt hlt
        simp [hlt, hle]

/-- The value `check_uptodate` computes for a not-yet-flagged `DummyReq`:
its own `last_update` is NaN, so when the target exists the evaluation
raises — `AttributeError` (from reading the missing `order_only` attribute)
when the aggregate is NaN, and the `ValueError` fallthrough (both NaN
comparisons are false) when the aggregate is a real timestamp. -/
theorem check_dummy_result (fs : FS) (t : String) (reqs : List Req)
    (σ0 : Sig) (vals : List (Option Nat)) (σ1 : Sig) (tr : List String)
    (h0 : (σ0 t).uptodate = false)
    (hcu : cu_list fs reqs σ0 = (.ok vals, σ1, tr)) :
    check_uptodate fs (.dummy t reqs) σ0 =
      match fs t, of_non_nan vals with
      | none, m => (.ok m, supd σ1 t ⟨false, m⟩, t :: tr)
      | some _, none => (.error .attrError, supd σ1 t ⟨true, none⟩, t :: tr)
      | some _, some mx =>
        (.error .valueError, supd σ1 t { σ1 t with cached := some mx }, t :: tr) := by
  rw [check_uptodate, if_neg (by simp [h0]), hcu]
  simp only [supd_supd]
  cases hft : fs t with
  | none => simp [hft]
  | some mt =>
    cases hm : of_non_nan vals with
    | none => simp [hft, hm]
    | some mx => simp [hft, hm, optGT, optLE]

/-- Unfolding of `make_req` when the target is not yet registered and
`extract_rule` selects a rule. -/
theorem make_req_rule_found (trgt : String) (rules : List MRule) (reg : Reg)
    (rule : MRule) (rem : List MRule)
    (hr : rget reg trgt = none)
    (hext : extract_rule trgt rules = (some rule, rem)) :
    make_req trgt rules reg =
      if rule.recipeFn trgt = "" then
        (Req.dummy trgt (make_reqs (rule.preqsFn trgt) rem reg).1,
          rset (make_reqs (rule.preqsFn trgt) rem reg).2 trgt
            (Req.dummy trgt (make_reqs (rule.preqsFn trgt) rem reg).1))
      else
        (Req.task trgt (make_reqs (rule.preqsFn trgt) rem reg).1
            (rule.recipeFn trgt) rule.order_only,
          rset (make_reqs (rule.preqsFn trgt) rem reg).2 trgt
            (Req.task trgt (make_reqs (rule.preqsFn trgt) rem reg).1
              (rule.recipeFn trgt) rule.order_only)) := by
  simp only [make_req, hr]
  split
  · rename_i rule2 remaining heq
    rw [hext] at heq
    simp only [Prod.mk.injEq, Option.some.injEq] at heq
    obtain ⟨h1, h2⟩ := heq
    subst h1
    subst h2
    rfl
  · rename_i snd heq
    rw [hext] at heq
    simp at heq

theorem bname_ne (t : String) : bname t ≠ t := by
  intro h
  have hlen := congrArg String.length h
  have h1 : ".".length = 1 := rfl
  have h2 : "~pymake-backup".length = 14 := rfl
  simp [bname, String.length_append, h1, h2] at hlen
  omega

/-- When a task node carries the `uptodate` flag, `run` returns through the
branch of line 368 without ever reaching `self.do`, so its recipe is not
handed to the subprocess runner (and the same holds on the `done` and
already-locked branches). -/
theorem run_upt_no_recipe (ex : Bool) (rr : String → FS → FS × Nat)
    (t : String) (reqs : List Req) (rcp : String) (oo : Bool) (rs : RS)
    (hupt : rs.upt t = true) :
    (run ex rr (.task t reqs rcp oo) rs).2.executed = rs.executed := by
  rw [run]
  by_cases hl : rs.lock t = true
  · simp [hl]
  · simp only [hl, Bool.false_eq_true, if_false, if_neg]
    by_cases hd : rs.done t = true
    · simp [hd, hl]
    · simp [hd, hl, hupt]

/-! ## Claim theorems -/

/-- C3: for a `TaskReq` whose recipe is actually invoked (not skipped by the
order-only short-circuit, not a dry run) and whose recipe touches only the
target path, a nonzero exit status leaves the target path with exactly the
content and existence it had before the recipe ran (a pre-existing target is
renamed aside and restored, a newly created incomplete target is removed), and
a zero exit status removes the backup permanently. -/
theorem claim_C3_backup_restore {α : Type} (execute order_only : Bool)
    (trgt : String)
    (recipeC : (String → Option α) → (String → Option α) × Nat)
    (g : String → Option α)
    (hrun : ¬(order_only = true ∧ (g trgt).isSome = true))
    (hex : execute = true)
    (hloc : ∀ h q, q ≠ trgt → (recipeC h).1 q = h q) :
    ((do_task execute order_only trgt recipeC g).2 = false →
      (do_task execute order_only trgt recipeC g).1 trgt = g trgt)
    ∧ ((do_task execute order_only trgt recipeC g).2 = true →
        (g trgt).isSome = true →
        (do_task execute order_only trgt recipeC g).1 (bname trgt) = none) := by
  subst hex
  have hb := bname_ne trgt
  have hcond : (order_only && (g trgt).isSome) = false := by
    cases horder : order_only <;> cases hog : (g trgt).isSome <;> simp_all
  rw [do_task, hcond]
  simp only [Bool.false_eq_true, if_false, if_true]
  rw [backup]
  cases hog : g trgt with
  | some v =>
    simp only [hog, Option.isSome_some, if_true]
    cases hrc : recipeC (fsRename g trgt (bname trgt)) with
    | mk h2 c =>
      cases hc : c == 0 with
      | true =>
        simp only [hrc, hc]
        constructor
        · intro hfalse
          simp at hfalse
        · intro _ _
          simp [fsSet]
      | false =>
        simp only [hrc, hc]
        constructor
        · intro _
          have hh2 : h2 (bname trgt) = g trgt := by
            have := hloc (fsRename g trgt (bname trgt)) (bname trgt) hb
            rw [hrc] at this
            simp only at this
            rw [this, fsRename, fsSet]
            simp [if_neg hb, fsSet]
          have hne : trgt ≠ bname trgt := fun hh => hb hh.symm
          simp [fsRename, fsSet, hne, hh2, hog]
        · intro htrue
          simp at htrue
  | none =>
    simp only [hog, Option.isSome_none, Bool.false_eq_true, if_false]
    cases hrc : recipeC g with
    | mk h2 c =>
      cases hc : c == 0 with
      | true =>
        simp only [hrc, hc]
        constructor
        · intro hfalse
          simp at hfalse
        · intro _ hsome
          simp [hog] at hsome
      | false =>
        simp only [hrc, hc]
        constructor
        · intro _
          cases hh2t : (h2 trgt).isSome with
          | true => simp [hh2t, fsSet, hog]
          | false =>
            simp only [hh2t, Bool.false_and, Bool.false_eq_true, if_false]
            exact Option.not_isSome_iff_eq_none.mp (by simp [hh2t])
        · intro _ hsome
          exact hsome.elim

/-- C3 witness: a pre-existing target with content `old` is restored after a
recipe that overwrites it with `new` and exits with status 1. -/
theorem claim_C3_backup_restore_witness :
    (do_task true false "out"
        (fun h => (fsSet h "out" (some "new"), 1))
        (fun p => if p = "out" then some "old" else none)).2 = false
    ∧ (do_task true false "out"
        (fun h => (fsSet h "out" (some "new"), 1))
        (fun p => if p = "out" then some "old" else none)).1 "out" = some "old" := by
  constructor
  · rfl
  · have := (claim_C3_backup_restore true false "out"
        (fun h => (fsSet h "out" (some "new"), 1))
        (fun p => if p = "out" then some "old" else none)
        (by simp) rfl
        (by intro h q hq; simp [fsSet, hq])).1 rfl
    rw [this]
    simp

/-- C1: refuted on the code (code bug).  `HierReq.run` acquires `run_lock`
but line 418 calls `self.do(**kwargs)` outside any `try/finally`; when the
recipe fails, `TaskReq.do` raises `CalledProcessError` and the lock is never
released, so the next `run` call on the same node blocks forever on
`run_lock.acquire()`.  Witnessed here on a task with a failing recipe: the
first `run` propagates the exception with the lock still held and the second
`run` blocks. -/
theorem claim_C1_lock_leak :
    (run true (fun _ g => (g, 1)) (.task "t" [] "cmd" false)
        (toRS initSig (fun _ => none))).1 = .raised
    ∧ (run true (fun _ g => (g, 1)) (.task "t" [] "cmd" false)
        (toRS initSig (fun _ => none))).2.lock "t" = true
    ∧ (run true (fun _ g => (g, 1)) (.task "t" [] "cmd" false)
        (run true (fun _ g => (g, 1)) (.task "t" [] "cmd" false)
          (toRS initSig (fun _ => none))).2).1 = .blocked := by
  exact ⟨rfl, rfl, rfl⟩

/-- C2: refuted on the code (code bug).  In the parallel branch the fan-in
loop of lines 392-399 starts one thread per prerequisite but returns as soon
as a joined prerequisite has `err_event` set, without joining the remaining
already-started threads.  With two prerequisites of which the first fails,
only the first is joined although both were launched. -/
theorem claim_C2_join_abandoned :
    join_loop [("p1", true), ("p2", false)] = ["p1"]
    ∧ join_loop [("p1", true), ("p2", false)] ≠
        (([("p1", true), ("p2", false)] : List (String × Bool)).map Prod.fst) := by
  constructor
  · rfl
  · intro h
    simp [join_loop] at h

/-- C6: refuted on the code (code bug).  `Req.instances` is a class
attribute — process-wide state — and `make` (lines 492-498) never clears it,
so a second build invocation in the same process resolves its target to the
very node object created by the first build, with all of its mutated flags:
running `make_req` again on the registry left by a first build returns the
cached node and leaves the registry unchanged. -/
theorem claim_C6_registry_is_process_wide :
    (make_req "a"
        [⟨fun t => t = "a", fun _ => [], fun _ => "build-a", false⟩]
        (make_req "a"
          [⟨fun t => t = "a", fun _ => [], fun _ => "build-a", false⟩] []).2).1 =
      (make_req "a"
        [⟨fun t => t = "a", fun _ => [], fun _ => "build-a", false⟩] []).1
    ∧ (make_req "a"
        [⟨fun t => t = "a", fun _ => [], fun _ => "build-a", false⟩]
        (make_req "a"
          [⟨fun t => t = "a", fun _ => [], fun _ => "build-a", false⟩] []).2).2 =
      (make_req "a"
        [⟨fun t => t = "a", fun _ => [], fun _ => "build-a", false⟩] []).2 := by
  constructor
  · simp [make_req, make_reqs, extract_rule, rget, rset]
  · simp [make_req, make_reqs, extract_rule, rget, rset]

/-- C4: for a `TaskReq` evaluated from a fresh build state: if the target
file does not exist, staleness evaluation leaves the node not up-to-date
(stale) whatever the prerequisites yielded; if the target exists and its
mtime is strictly greater than every prerequisite timestamp that propagated
up, the node is flagged up-to-date and a subsequent `run` on a node carrying
that flag never invokes the recipe. -/
theorem claim_C4_staleness :
    (∀ (fs : FS) (t : String) (reqs : List Req) (rcp : String) (oo : Bool)
        (vals : List (Option Nat)) (σ1 : Sig) (tr : List String),
      fs t = none →
      cu_list fs reqs initSig = (.ok vals, σ1, tr) →
      ((check_uptodate fs (.task t reqs rcp oo) initSig).2.1 t).uptodate = false
        ∧ (check_uptodate fs (.task t reqs rcp oo) initSig).1 =
            .ok (of_non_nan vals))
    ∧
    (∀ (fs : FS) (t : String) (reqs : List Req) (rcp : String) (oo : Bool)
        (mt : Nat) (vals : List (Option Nat)) (σ1 : Sig) (tr : List String),
      fs t = some mt →
      cu_list fs reqs initSig = (.ok vals, σ1, tr) →
      (∀ v ∈ vals, ∀ x, v = some x → x < mt) →
      ((check_uptodate fs (.task t reqs rcp oo) initSig).2.1 t).uptodate = true
        ∧ ∀ (ex : Bool) (rr : String → FS → FS × Nat) (rs : RS),
            rs.upt t = true →
            (run ex rr (.task t reqs rcp oo) rs).2.executed = rs.executed) := by
  constructor
  · intro fs t reqs rcp oo vals σ1 tr hft hcu
    have hres := check_task_result fs t reqs rcp oo initSig vals σ1 tr rfl hcu
    rw [hres]
    simp [hft]
  · intro fs t reqs rcp oo mt vals σ1 tr hft hcu hall
    have hres := check_task_result fs t reqs rcp oo initSig vals σ1 tr rfl hcu
    constructor
    · rw [hres]
      cases hm : of_non_nan vals with
      | none => simp [hft, hm]
      | some mx =>
        have hmem := of_non_nan_mem hm
        have hlt : mx < mt := hall (some mx) hmem mx rfl
        simp [hft, hm, hlt]
    · intro ex rr rs hupt
      exact run_upt_no_recipe ex rr t reqs rcp oo rs hupt

/-- C4 witness: a task with one existing prerequisite (mtime 5) and target
mtime 10 is flagged up-to-date and `run` does not execute its recipe; the
same task with a missing target is left stale. -/
theorem claim_C4_staleness_witness :
    (((check_uptodate (fun p => if p = "in" then some 5 else none)
        (.task "out" [.file "in"] "r" false) initSig).2.1 "out").uptodate = false)
    ∧ (((check_uptodate
          (fun p => if p = "out" then some 10 else if p = "in" then some 5 else none)
          (.task "out" [.file "in"] "r" false) initSig).2.1 "out").uptodate = true)
    ∧ ((run true (fun _ g => (g, 0)) (.task "out" [.file "in"] "r" false)
          (toRS (check_uptodate
              (fun p => if p = "out" then some 10 else if p = "in" then some 5 else none)
              (.task "out" [.file "in"] "r" false) initSig).2.1
            (fun p => if p = "out" then some 10 else if p = "in" then some 5 else none))).2.executed
        = []) := by
  refine ⟨?_, ?_, ?_⟩
  · exact (claim_C4_staleness.1 (fun p => if p = "in" then some 5 else none)
      "out" [.file "in"] "r" false [some 5] initSig ["in"] rfl rfl).1
  · exact (claim_C4_staleness.2
      (fun p => if p = "out" then some 10 else if p = "in" then some 5 else none)
      "out" [.file "in"] "r" false 10 [some 5] initSig ["in"] rfl rfl
      (by intro v hv x hx
          simp at hv
          rw [hv] at hx
          cases hx
          omega)).1
  · exact (claim_C4_staleness.2
      (fun p => if p = "out" then some 10 else if p = "in" then some 5 else none)
      "out" [.file "in"] "r" false 10 [some 5] initSig ["in"] rfl rfl
      (by intro v hv x hx
          simp at hv
          rw [hv] at hx
          cases hx
          omega)).2 true (fun _ g => (g, 0)) _ (by rfl)

/-- C5 counterexample: memoization does not apply to stale nodes.  A task
with a missing target (hence flagged not up-to-date) and one existing
prerequisite is evaluated twice; the trace of the second evaluation again
contains the prerequisite `s`, so the prerequisite is re-evaluated rather
than answered from a cache (the `uptodate` guard on line 306 only
short-circuits nodes that were flagged up-to-date). -/
theorem claim_C5_memo_cex :
    (check_uptodate (fun p => if p = "s" then some 5 else none)
        (.task "d" [.file "s"] "r" false) initSig).2.2 = ["d", "s"]
    ∧ (check_uptodate (fun p => if p = "s" then some 5 else none)
        (.task "d" [.file "s"] "r" false)
        (check_uptodate (fun p => if p = "s" then some 5 else none)
          (.task "d" [.file "s"] "r" false) initSig).2.1).2.2 = ["d", "s"] := by
  exact ⟨rfl, rfl⟩

/-- The memoized branch of `check_uptodate` for a flagged task node. -/
theorem check_task_memo (fs : FS) (t : String) (reqs : List Req)
    (rcp : String) (oo : Bool) (σ : Sig) (h : (σ t).uptodate = true) :
    check_uptodate fs (.task t reqs rcp oo) σ =
      (if !oo then .ok (fs t) else .ok (σ t).cached, σ, [t]) := by
  rw [check_uptodate]
  simp [h]

/-- C5 amended: memoization applies exactly to nodes flagged up-to-date.
If the first (non-memoized) evaluation of a task node completes and flags
the node up-to-date, a second evaluation returns the identical result and
state, with a trace consisting of the node alone — its prerequisites are
not re-evaluated. -/
theorem claim_C5_memo_amended (fs : FS) (t : String) (reqs : List Req)
    (rcp : String) (oo : Bool) (σ0 : Sig) (vals : List (Option Nat))
    (σ1 : Sig) (tr : List String) (v : Option Nat) (σf : Sig) (trf : List String)
    (h0 : (σ0 t).uptodate = false)
    (hcu : cu_list fs reqs σ0 = (.ok vals, σ1, tr))
    (hmain : check_uptodate fs (.task t reqs rcp oo) σ0 = (.ok v, σf, trf))
    (hflag : (σf t).uptodate = true) :
    check_uptodate fs (.task t reqs rcp oo) σf = (.ok v, σf, [t]) := by
  have hres := check_task_result fs t reqs rcp oo σ0 vals σ1 tr h0 hcu
  rw [check_task_memo fs t reqs rcp oo σf hflag]
  cases hft : fs t with
  | none =>
    simp only [hft] at hres
    rw [hres] at hmain
    simp only [Prod.mk.injEq] at hmain
    obtain ⟨-, h2, -⟩ := hmain
    rw [← h2] at hflag
    simp at hflag
  | some mt =>
    cases hm : of_non_nan vals with
    | none =>
      simp only [hft, hm] at hres
      rw [hres] at hmain
      simp only [Prod.mk.injEq] at hmain
      obtain ⟨h1, h2, -⟩ := hmain
      rw [← h2]
      simp only [supd_same]
      cases oo with
      | false => simp_all
      | true => simp_all
    | some mx =>
      simp only [hft, hm] at hres
      by_cases hlt : mx < mt
      · rw [if_pos hlt] at hres
        rw [hres] at hmain
        simp only [Prod.mk.injEq] at hmain
        obtain ⟨h1, h2, -⟩ := hmain
        rw [← h2]
        simp only [supd_same]
        cases oo with
        | false => simp_all
        | true => simp_all
      · rw [if_neg hlt] at hres
        rw [hres] at hmain
        simp only [Prod.mk.injEq] at hmain
        obtain ⟨-, h2, -⟩ := hmain
        rw [← h2] at hflag
        simp at hflag

/-- C5 amended witness: a task flagged up-to-date by a first evaluation is
re-evaluated with the identical result and a one-node trace. -/
theorem claim_C5_memo_amended_witness :
    check_uptodate
        (fun p => if p = "out" then some 10 else if p = "in" then some 5 else none)
        (.task "out" [.file "in"] "r" false)
        (check_uptodate
          (fun p => if p = "out" then some 10 else if p = "in" then some 5 else none)
          (.task "out" [.file "in"] "r" false) initSig).2.1 =
      (.ok (some 10),
        (check_uptodate
          (fun p => if p = "out" then some 10 else if p = "in" then some 5 else none)
          (.task "out" [.file "in"] "r" false) initSig).2.1, ["out"]) := by
  exact claim_C5_memo_amended
    (fun p => if p = "out" then some 10 else if p = "in" then some 5 else none)
    "out" [.file "in"] "r" false initSig [some 5] initSig ["in"] (some 10)
    (check_uptodate
      (fun p => if p = "out" then some 10 else if p = "in" then some 5 else none)
      (.task "out" [.file "in"] "r" false) initSig).2.1 ["out", "in"]
    rfl rfl rfl rfl

/-- C10 counterexample: a `DummyReq` whose target exists and whose
prerequisite aggregate is a real timestamp does not raise `AttributeError`.
Its own `last_update` is NaN, so both NaN comparisons on lines 330 and 338
are false and evaluation falls through to the `ValueError` of line 346
before any read of the missing `order_only` attribute. -/
theorem claim_C10_group_eval_cex :
    (check_uptodate
        (fun p => if p = "all" then some 3 else if p = "p" then some 5 else none)
        (.dummy "all" [.file "p"]) initSig).1 = .error .valueError
    ∧ CUErr.valueError ≠ CUErr.attrError := by
  exact ⟨rfl, by decide⟩

/-- C10 amended: evaluating a `DummyReq` from a fresh build state completes
normally exactly when its target does not exist as a file.  When the target
exists, the missing-`order_only` `AttributeError` is raised only on the
branch where the prerequisite aggregate is NaN; when the aggregate is a real
timestamp, the NaN own-timestamp makes both comparisons false and the
`ValueError` fallthrough is raised instead. -/
theorem claim_C10_group_eval_amended (fs : FS) (t : String) (reqs : List Req)
    (vals : List (Option Nat)) (σ1 : Sig) (tr : List String)
    (hcu : cu_list fs reqs initSig = (.ok vals, σ1, tr)) :
    (fs t = none →
      (check_uptodate fs (.dummy t reqs) initSig).1 = .ok (of_non_nan vals))
    ∧ (∀ u, fs t = some u → of_non_nan vals = none →
        (check_uptodate fs (.dummy t reqs) initSig).1 = .error .attrError)
    ∧ (∀ u w, fs t = some u → of_non_nan vals = some w →
        (check_uptodate fs (.dummy t reqs) initSig).1 = .error .valueError) := by
  have hres := check_dummy_result fs t reqs initSig vals σ1 tr rfl hcu
  refine ⟨?_, ?_, ?_⟩
  · intro hft
    simp only [hft] at hres
    rw [hres]
  · intro u hft hm
    simp only [hft, hm] at hres
    rw [hres]
  · intro u w hft hm
    simp only [hft, hm] at hres
    rw [hres]

/-- C10 amended witness: the three branches at concrete inputs — missing
group target evaluates normally, existing group target raises
`AttributeError` when no prerequisite exists and `ValueError` when a
prerequisite timestamp propagates. -/
theorem claim_C10_group_eval_amended_witness :
    (check_uptodate (fun p => if p = "p" then some 5 else none)
        (.dummy "all" [.file "p"]) initSig).1 = .ok (some 5)
    ∧ (check_uptodate (fun p => if p = "all" then some 3 else none)
        (.dummy "all" []) initSig).1 = .error .attrError
    ∧ (check_uptodate
        (fun p => if p = "all" then some 3 else if p = "p" then some 5 else none)
        (.dummy "all" [.file "q", .file "p"]) initSig).1 = .error .valueError := by
  refine ⟨?_, ?_, ?_⟩
  · exact (claim_C10_group_eval_amended (fun p => if p = "p" then some 5 else none)
      "all" [.file "p"] [some 5] initSig ["p"] rfl).1 rfl
  · exact (claim_C10_group_eval_amended (fun p => if p = "all" then some 3 else none)
      "all" [] [] initSig [] rfl).2.1 3 rfl rfl
  · exact (claim_C10_group_eval_amended
      (fun p => if p = "all" then some 3 else if p = "p" then some 5 else none)
      "all" [.file "q", .file "p"] [none, some 5] initSig ["q", "p"] rfl).2.2
      3 5 rfl rfl

/-- An order-only task node that completes evaluation always returns its
prerequisite aggregate, whatever its own timestamp: in every branch with
`order_only` true the returned value is `max_usts`. -/
theorem check_oo_task_sigma (fs : FS) (t : String) (reqs : List Req)
    (rcp : String) (σ0 : Sig) (vals : List (Option Nat)) (σ1 : Sig)
    (tr : List String)
    (h0 : (σ0 t).uptodate = false)
    (hcu : cu_list fs reqs σ0 = (.ok vals, σ1, tr)) :
    ∃ σN, check_uptodate fs (.task t reqs rcp true) σ0 =
      (.ok (of_non_nan vals), σN, t :: tr) := by
  have hres := check_task_result fs t reqs rcp true σ0 vals σ1 tr h0 hcu
  cases hft : fs t with
  | none =>
    simp only [hft] at hres
    exact ⟨_, hres⟩
  | some mt =>
    cases hm : of_non_nan vals with
    | none =>
      simp only [hft, hm] at hres
      refine ⟨supd σ1 t ⟨true, none⟩, ?_⟩
      rw [hres]
      simp
    | some mx =>
      simp only [hft, hm] at hres
      by_cases hlt : mx < mt
      · rw [if_pos hlt] at hres
        refine ⟨supd σ1 t ⟨true, some mx⟩, ?_⟩
        rw [hres]
        simp
      · rw [if_neg hlt] at hres
        exact ⟨supd σ1 t ⟨false, some mx⟩, hres⟩

/-- C7: order-only semantics.  (1) An order-only task node propagates its
prerequisite aggregate upward, not its own timestamp.  (2) Its own staleness
decision still compares its own mtime against the aggregate.  (3) Hence an
order-only prerequisite that exists and is newer than its parent target does
not force the parent to rebuild, as long as what the prerequisite
propagates — its own prerequisite aggregate — stays below the parent mtime.
(4) An order-only task whose target does not exist is executed when the
executor reaches it: the order-only short-circuit in `TaskReq.do` only skips
execution when the target exists, so the recipe is invoked. -/
theorem claim_C7_order_only :
    (∀ (fs : FS) (t : String) (reqs : List Req) (rcp : String)
        (vals : List (Option Nat)) (σ1 : Sig) (tr : List String),
      cu_list fs reqs initSig = (.ok vals, σ1, tr) →
      (check_uptodate fs (.task t reqs rcp true) initSig).1 =
        .ok (of_non_nan vals))
    ∧
    (∀ (fs : FS) (t : String) (reqs : List Req) (rcp : String)
        (vals : List (Option Nat)) (σ1 : Sig) (tr : List String) (mt mx : Nat),
      cu_list fs reqs initSig = (.ok vals, σ1, tr) →
      fs t = some mt → of_non_nan vals = some mx →
      ((check_uptodate fs (.task t reqs rcp true) initSig).2.1 t).uptodate =
        decide (mx < mt))
    ∧
    (∀ (fs : FS) (p t : String) (reqs : List Req) (rcp rp : String)
        (vals : List (Option Nat)) (σ1 : Sig) (tr : List String) (mp mo : Nat),
      fs p = some mp → fs t = some mo → mp < mo →
      cu_list fs reqs initSig = (.ok vals, σ1, tr) →
      (∀ a, of_non_nan vals = some a → a < mp) →
      ((check_uptodate fs (.task p [.task t reqs rcp true] rp false)
          initSig).2.1 p).uptodate = true)
    ∧
    (∀ (rr : String → FS → FS × Nat) (t : String) (reqs : List Req)
        (rcp : String) (rs rs2 : RS),
      rs.lock t = false → rs.done t = false → rs.upt t = false →
      rs.err t = false →
      run_seq true rr reqs { rs with lock := bset rs.lock t true } = (.allOk, rs2) →
      rs2.err t = false → rs2.fs t = none →
      (run true rr (.task t reqs rcp true) rs).2.executed = rs2.executed ++ [t]) := by
  refine ⟨?_, ?_, ?_, ?_⟩
  · intro fs t reqs rcp vals σ1 tr hcu
    obtain ⟨σN, hN⟩ := check_oo_task_sigma fs t reqs rcp initSig vals σ1 tr rfl hcu
    rw [hN]
  · intro fs t reqs rcp vals σ1 tr mt mx hcu hft hm
    have hres := check_task_result fs t reqs rcp true initSig vals σ1 tr rfl hcu
    simp only [hft, hm] at hres
    by_cases hlt : mx < mt
    · rw [if_pos hlt] at hres
      rw [hres]
      simp [hlt]
    · rw [if_neg hlt] at hres
      rw [hres]
      simp [hlt]
  · intro fs p t reqs rcp rp vals σ1 tr mp mo hfp hft hlt hcu hall
    obtain ⟨σN, hN⟩ := check_oo_task_sigma fs t reqs rcp initSig vals σ1 tr rfl hcu
    have hcuP : cu_list fs [Req.task t reqs rcp true] initSig =
        (.ok [of_non_nan vals], σN, t :: tr) := by
      rw [cu_list, hN]
      simp [cu_list]
    have hresP := check_task_result fs p [Req.task t reqs rcp true] rp false
      initSig [of_non_nan vals] σN (t :: tr) rfl hcuP
    cases hm : of_non_nan vals with
    | none =>
      have h1 : of_non_nan [(none : Option Nat)] = none := rfl
      rw [hm] at hresP
      simp only [hfp, h1] at hresP
      rw [hresP]
      simp
    | some a =>
      have ha : a < mp := hall a hm
      have h1 : of_non_nan [some a] = some a := rfl
      rw [hm] at hresP
      simp only [hfp, h1] at hresP
      rw [if_pos ha] at hresP
      rw [hresP]
      simp
  · intro rr t reqs rcp rs rs2 hl hd hu he hseq he2 hf2
    rw [run]
    simp only [hl, Bool.false_eq_true, if_false]
    simp only [hd, hu, he, Bool.false_eq_true, if_false]
    rw [hseq]
    simp only [hf2, Option.isNone_none, Option.isSome_none, Bool.and_false,
      Bool.false_eq_true, if_false, if_true]
    cases hb : backup t (bname t) true
        (fun g => match rr rcp g with | (g2, c) => (g2, c == 0)) rs2.fs with
    | mk fs2 okb =>
      cases okb with
      | true => simp [he2]
      | false => simp

/-- C7 witness at concrete inputs: an order-only task with target mtime 7
and a prerequisite of mtime 9 propagates 9 and is itself flagged stale; a
parent of mtime 10 whose order-only prerequisite has mtime 20 but propagates
3 stays up-to-date; a missing order-only task reached by the executor gets
its recipe run. -/
theorem claim_C7_order_only_witness :
    ((check_uptodate (fun p => if p = "o" then some 7 else if p = "i" then some 9 else none)
        (.task "o" [.file "i"] "r" true) initSig).1 = .ok (some 9))
    ∧ (((check_uptodate (fun p => if p = "o" then some 7 else if p = "i" then some 9 else none)
        (.task "o" [.file "i"] "r" true) initSig).2.1 "o").uptodate = false)
    ∧ (((check_uptodate
          (fun p => if p = "p" then some 10 else if p = "o" then some 20 else
            if p = "i" then some 3 else none)
          (.task "p" [.task "o" [.file "i"] "r" true] "rp" false)
          initSig).2.1 "p").uptodate = true)
    ∧ ((run true (fun _ g => (g, 0)) (.task "x" [] "r" true)
          (toRS initSig (fun _ => none))).2.executed = ["x"]) := by
  refine ⟨?_, ?_, ?_, ?_⟩
  · exact claim_C7_order_only.1
      (fun p => if p = "o" then some 7 else if p = "i" then some 9 else none)
      "o" [.file "i"] "r" [some 9] initSig ["i"] rfl
  · exact claim_C7_order_only.2.1
      (fun p => if p = "o" then some 7 else if p = "i" then some 9 else none)
      "o" [.file "i"] "r" [some 9] initSig ["i"] 7 9 rfl rfl rfl
  · exact claim_C7_order_only.2.2.1
      (fun p => if p = "p" then some 10 else if p = "o" then some 20 else
        if p = "i" then some 3 else none)
      "p" "o" [.file "i"] "r" "rp" [some 3] initSig ["i"] 10 20
      rfl rfl (by omega) rfl
      (by intro a ha
          rw [show of_non_nan [some 3] = some 3 from rfl] at ha
          cases ha
          omega)
  · exact claim_C7_order_only.2.2.2 (fun _ g => (g, 0)) "x" [] "r"
      (toRS initSig (fun _ => none)) _ rfl rfl rfl rfl rfl rfl rfl

/-- C8 counterexample: graph construction on a genuinely cyclic rule set
(`a` depends on `b`, `b` depends on `a`) does not fail at all — there is no
cycle detection and no `CycleError` anywhere in the module.  Construction
terminates normally: when `a` reappears below itself its rule has already
been removed from the candidate list, no rule applies, and it becomes a
`FileReq` leaf. -/
theorem claim_C8_cycle_cex :
    (make_req "a"
      [⟨fun t => t = "a", fun _ => ["b"], fun _ => "ra", false⟩,
       ⟨fun t => t = "b", fun _ => ["a"], fun _ => "rb", false⟩] []).1 =
      Req.task "a" [Req.task "b" [Req.file "a"] "rb" false] "ra" false := by
  simp [make_req, make_reqs, extract_rule, rget, rset]

/-- C8 amended: construction never aborts; a target for which no candidate
rule applies (in particular a cycling target whose rule was consumed higher
on the same resolution path) is resolved as a `FileReq` and registered, and
resolution continues normally. -/
theorem claim_C8_cycle_amended (trgt : String) (rules : List MRule) (reg : Reg)
    (hreg : rget reg trgt = none)
    (hext : (extract_rule trgt rules).1 = none) :
    make_req trgt rules reg = (.file trgt, rset reg trgt (.file trgt)) := by
  cases hext2 : extract_rule trgt rules with
  | mk o rem =>
    rw [hext2] at hext
    simp only at hext
    subst hext
    simp only [make_req, hreg]
    split
    · rename_i rule remaining heq
      rw [hext2] at heq
      simp at heq
    · rfl

/-- C8 amended witness: a target with no rules resolves to a registered
`FileReq`. -/
theorem claim_C8_cycle_amended_witness :
    make_req "c" [] [] = (.file "c", rset [] "c" (.file "c")) := by
  exact claim_C8_cycle_amended "c" [] [] rfl rfl

/-- C9: `make_req` terminates on every input, with recursion depth bounded
by the number of rules: the fuel-indexed variant, which spends one unit of
fuel exactly where `make_req` recurses into the rule-pruned candidate list,
already agrees with `make_req` whenever the fuel exceeds the number of
candidate rules. -/
theorem claim_C9_bounded_recursion :
    ∀ (fuel : Nat) (trgt : String) (rules : List MRule) (reg : Reg),
      rules.length < fuel →
      make_req_fuel fuel trgt rules reg = some (make_req trgt rules reg) := by
  intro fuel
  induction fuel with
  | zero =>
    intro trgt rules reg h
    exact absurd h (by omega)
  | succ n ih =>
    have hlist : ∀ (ps : List String) (rules2 : List MRule) (reg2 : Reg),
        rules2.length < n →
        make_reqs_fuel n ps rules2 reg2 = some (make_reqs ps rules2 reg2) := by
      intro ps
      induction ps with
      | nil =>
        intro rules2 reg2 h2
        simp [make_reqs_fuel, make_reqs]
      | cons p rest ihp =>
        intro rules2 reg2 h2
        rw [make_reqs_fuel, ih p rules2 reg2 h2]
        simp only
        rw [ihp rules2 (make_req p rules2 reg2).2 h2]
        simp only
        rw [make_reqs]
    intro trgt rules reg h
    cases hr : rget reg trgt with
    | some r => simp [make_req_fuel, make_req, hr]
    | none =>
      cases hext : extract_rule trgt rules with
      | mk o rem =>
        cases o with
        | none =>
          simp only [make_req_fuel, make_req, hr, hext]
          split
          · rename_i rule remaining heq
            rw [hext] at heq
            simp at heq
          · rfl
        | some rule =>
          have hlen : rem.length + 1 = rules.length := extract_rule_length hext
          have hremn : rem.length < n := by omega
          rw [make_req_rule_found trgt rules reg rule rem hr hext]
          simp only [make_req_fuel, hr, hext]
          rw [hlist (rule.preqsFn trgt) rem reg hremn]
          simp only
          by_cases hrc : rule.recipeFn trgt = "" <;> simp [hrc]

/-- C9 witness: with an empty rule list one unit of fuel suffices and the
fueled construction agrees with `make_req`. -/
theorem claim_C9_bounded_recursion_witness :
    ([] : List MRule).length < 1
    ∧ make_req_fuel 1 "w" [] [] = some (make_req "w" [] []) := by
  exact ⟨by decide, claim_C9_bounded_recursion 1 "w" [] [] (by decide)⟩

end Pymake
